import Mathlib

/-!
Verification of the text layout and shaping engine of `rasterize-wasm`
(`src/renderers/text-processor.js` and `src/renderers/font-loader.js`,
harfbuzzjs backend).

Modelling conventions:
* a JS string is its list of Unicode code points (`JStr`);
* JS numbers are modelled as rationals (the arithmetic performed here is
  a handful of exact multiplications and divisions);
* font handles are opaque objects compared by identity, modelled as `Nat`;
* the external collaborators (bidi-js embedding levels, the HarfBuzz
  shaper, the prefetched emoji map) are parameters of the definitions
  that consume them, exactly at the call sites where the source invokes
  them.
-/

namespace Rasterize

/-- A JS string, modelled as its list of Unicode code points. -/
abbrev JStr := List Char

/-- A grapheme cluster: one segment produced by the grapheme segmenter. -/
abbrev Grapheme := JStr

/-- A loaded font handle.  The source compares fonts with `===` (object
identity); we model handles as distinct naturals. -/
abbrev Font := Nat

/-- A resolved bidi direction (`'ltr' | 'rtl'` in the source). -/
inductive Dir
  | ltr
  | rtl
  deriving DecidableEq, Repr

/-- Embeds `grapheme.codePointAt(0)`: the code point of the leading character,
`none` for the empty string (JS `undefined`, which fails every numeric
comparison). -/
def codePointAt0 (g : Grapheme) : Option Nat :=
  match g with
  | [] => none
  | c :: _ => some c.toNat

/-- Embeds `cp >= lo` on the possibly-undefined leading code point. -/
def cpGe (g : Grapheme) (lo : Nat) : Bool :=
  match codePointAt0 g with
  | some cp => decide (lo ≤ cp)
  | none => false

/-- Embeds `lo <= cp && cp <= hi` on the possibly-undefined leading code point. -/
def cpInRange (g : Grapheme) (lo hi : Nat) : Bool :=
  match codePointAt0 g with
  | some cp => decide (lo ≤ cp) && decide (cp ≤ hi)
  | none => false

/-- Embeds `cp === n` on the possibly-undefined leading code point. -/
def cpIs (g : Grapheme) (n : Nat) : Bool :=
  match codePointAt0 g with
  | some cp => decide (cp = n)
  | none => false

/-- Embeds `isEmoji` from `text-processor.js`: the ordered sequence of leading
code-point range tests, then the combining-keycap containment test, then
the ©/®/™-with-VS16 test. -/
def isEmoji (g : Grapheme) : Bool :=
  -- Regional indicator symbols (flags)
  cpInRange g 0x1F1E0 0x1F1FF ||
  -- Common emoji ranges (emoticons, symbols, etc.)
  cpGe g 0x1F000 ||
  -- Dingbats, misc symbols
  cpInRange g 0x2600 0x27BF ||
  -- Misc technical (hourglass, watch, etc.)
  cpInRange g 0x2300 0x23FF ||
  -- Supplemental arrows, misc symbols
  cpInRange g 0x2B00 0x2BFF ||
  -- Arrows, math operators with emoji presentation
  cpInRange g 0x2190 0x21FF ||
  -- Enclosed alphanumerics
  cpInRange g 0x24C2 0x24FF ||
  -- Geometric shapes
  cpInRange g 0x25A0 0x25FF ||
  -- Keycap sequences: digit/#/asterisk + VS16 + U+20E3
  g.contains (Char.ofNat 0x20E3) ||
  -- copyright, registered, trademark with VS16
  ((cpIs g 0x00A9 || cpIs g 0x00AE || cpIs g 0x2122) && g.contains (Char.ofNat 0xFE0F))

/-- Embeds `str.replace(/c/g, s)` for a single-character pattern `c`. -/
def replaceChar (c : Char) (s : JStr) (t : JStr) : JStr :=
  t.flatMap fun ch => if ch = c then s else [ch]

/-- Embeds `escapeXml` from `text-processor.js`: the five sequential global
replacements, ampersand first. -/
def escapeXml (t : JStr) : JStr :=
  replaceChar '\'' "&apos;".toList
    (replaceChar '"' "&quot;".toList
      (replaceChar '>' "&gt;".toList
        (replaceChar '<' "&lt;".toList
          (replaceChar '&' "&amp;".toList t))))

/-- Per-character view of `escapeXml` (proved equal to the pipeline in
`escapeXml_eq_bind`). -/
def escapeChar (c : Char) : JStr :=
  if c = '&' then "&amp;".toList
  else if c = '<' then "&lt;".toList
  else if c = '>' then "&gt;".toList
  else if c = '"' then "&quot;".toList
  else if c = '\'' then "&apos;".toList
  else [c]

/-- No raw markup-special character occurs in the string. -/
def noRawSpecials (t : JStr) : Bool :=
  t.all fun c => !(c = '<' || c = '>' || c = '"' || c = '\'')

/-- The string starts with the tail of one of the five emitted entities
(the part after the ampersand). -/
def entityTail (t : JStr) : Bool :=
  "amp;".toList.isPrefixOf t || "lt;".toList.isPrefixOf t ||
  "gt;".toList.isPrefixOf t || "quot;".toList.isPrefixOf t ||
  "apos;".toList.isPrefixOf t

/-- Every ampersand in the string begins one of the five entities
`&amp; &lt; &gt; &quot; &apos;`. -/
def ampOk : JStr → Bool
  | [] => true
  | c :: rest => if c = '&' then entityTail rest && ampOk rest else ampOk rest

/-! ## Script classification (`font-loader.js`, `SCRIPT_FONTS`) -/

/-- The script entries of `FontLoader.SCRIPT_FONTS`, in table order. -/
inductive Script
  | arabic
  | hebrew
  | korean
  | cjkJapanese
  | devanagari
  | bengali
  | gurmukhi
  | gujarati
  | tamil
  | telugu
  | kannada
  | malayalam
  | thai
  | lao
  | myanmar
  | armenian
  | georgian
  | cyrillicGreek
  deriving DecidableEq, Repr

/-- The code-point intervals of each entry's character-class regex. -/
def scriptRanges : Script → List (Nat × Nat)
  | .arabic => [(0x0600, 0x06FF), (0x0750, 0x077F)]
  | .hebrew => [(0x0590, 0x05FF)]
  | .korean => [(0xAC00, 0xD7AF), (0x1100, 0x11FF), (0x3130, 0x318F)]
  | .cjkJapanese => [(0x3400, 0x4DBF), (0x4E00, 0x9FFF), (0x3040, 0x309F), (0x30A0, 0x30FF)]
  | .devanagari => [(0x0900, 0x097F)]
  | .bengali => [(0x0980, 0x09FF)]
  | .gurmukhi => [(0x0A00, 0x0A7F)]
  | .gujarati => [(0x0A80, 0x0AFF)]
  | .tamil => [(0x0B80, 0x0BFF)]
  | .telugu => [(0x0C00, 0x0C7F)]
  | .kannada => [(0x0C80, 0x0CFF)]
  | .malayalam => [(0x0D00, 0x0D7F)]
  | .thai => [(0x0E00, 0x0E7F)]
  | .lao => [(0x0E80, 0x0EFF)]
  | .myanmar => [(0x1000, 0x109F)]
  | .armenian => [(0x0530, 0x058F)]
  | .georgian => [(0x10A0, 0x10FF)]
  | .cyrillicGreek => [(0x0400, 0x04FF), (0x0370, 0x03FF)]

/-- The table order of `SCRIPT_FONTS` (first match wins). -/
def scriptTable : List Script :=
  [.arabic, .hebrew, .korean, .cjkJapanese, .devanagari, .bengali, .gurmukhi,
   .gujarati, .tamil, .telugu, .kannada, .malayalam, .thai, .lao, .myanmar,
   .armenian, .georgian, .cyrillicGreek]

/-- Membership of one character in a script entry's character class. -/
def charInScript (sc : Script) (c : Char) : Bool :=
  (scriptRanges sc).any fun p => decide (p.1 ≤ c.toNat) && decide (c.toNat ≤ p.2)

/-- Embeds `FontLoader.getScriptFont(char)`: first entry whose regex matches the
string (a regex `test` succeeds when any character of the string is in
the class). -/
def getScriptFont (g : JStr) : Option Script :=
  scriptTable.find? fun sc => g.any (charInScript sc)

/-- The first font-family name of each script entry (`entry.fonts[0]`),
with `+` already replaced by a space as in `getFontFamilyCSS`. -/
def scriptFamilyName : Script → JStr
  | .arabic => "Noto Naskh Arabic".toList
  | .hebrew => "Noto Sans Hebrew".toList
  | .korean => "Noto Sans KR".toList
  | .cjkJapanese => "Noto Sans SC".toList
  | .devanagari => "Noto Sans Devanagari".toList
  | .bengali => "Noto Sans Bengali".toList
  | .gurmukhi => "Noto Sans Gurmukhi".toList
  | .gujarati => "Noto Sans Gujarati".toList
  | .tamil => "Noto Sans Tamil".toList
  | .telugu => "Noto Sans Telugu".toList
  | .kannada => "Noto Sans Kannada".toList
  | .malayalam => "Noto Sans Malayalam".toList
  | .thai => "Noto Sans Thai".toList
  | .lao => "Noto Sans Lao".toList
  | .myanmar => "Noto Sans Myanmar".toList
  | .armenian => "Noto Sans Armenian".toList
  | .georgian => "Noto Sans Georgian".toList
  | .cyrillicGreek => "Noto Sans".toList

/-- Embeds `FontLoader.getFontFamilyCSS(char)`. -/
def getFontFamilyCSS (g : JStr) : JStr :=
  match getScriptFont g with
  | none => "Arial, sans-serif".toList
  | some sc => '\'' :: scriptFamilyName sc ++ "', sans-serif".toList

/-- Embeds the `FontLoader.CJK_REGEX` character test. -/
def isCJKChar (c : Char) : Bool :=
  (decide (0x4E00 ≤ c.toNat) && decide (c.toNat ≤ 0x9FFF)) ||
  (decide (0x3400 ≤ c.toNat) && decide (c.toNat ≤ 0x4DBF)) ||
  (decide (0x3040 ≤ c.toNat) && decide (c.toNat ≤ 0x30FF)) ||
  (decide (0xAC00 ≤ c.toNat) && decide (c.toNat ≤ 0xD7AF)) ||
  (decide (0x1100 ≤ c.toNat) && decide (c.toNat ≤ 0x11FF)) ||
  (decide (0x3130 ≤ c.toNat) && decide (c.toNat ≤ 0x318F))

/-- Embeds `FontLoader.isCJK(char)` (regex `test`: any character matches). -/
def isCJK (g : JStr) : Bool :=
  g.any isCJKChar

/-! ## The neutral-character class of `segmentByFont`

The source tests `/^[\s\d\p{P}\p{S}]*$/u`.  `\s` and `\d` are the exact
JS classes; for `\p{P}` (punctuation) and `\p{S}` (symbols) we do not
reproduce the full Unicode category tables but cover the blocks this
development exercises: ASCII punctuation and symbols (exact on ASCII),
general punctuation, and the arrow / technical / box-drawing / dingbat
symbol blocks. -/

/-- The JS `\s` class (ECMA-262 WhiteSpace ∪ LineTerminator). -/
def jsWhitespaceChar (c : Char) : Bool :=
  c.toNat = 0x09 || c.toNat = 0x0A || c.toNat = 0x0B || c.toNat = 0x0C ||
  c.toNat = 0x0D || c.toNat = 0x20 || c.toNat = 0xA0 || c.toNat = 0x1680 ||
  (decide (0x2000 ≤ c.toNat) && decide (c.toNat ≤ 0x200A)) ||
  c.toNat = 0x2028 || c.toNat = 0x2029 || c.toNat = 0x202F ||
  c.toNat = 0x205F || c.toNat = 0x3000 || c.toNat = 0xFEFF

/-- One character of the source's `[\s\d\p{P}\p{S}]` class (see the
section comment for the covered `\p{P}`/`\p{S}` blocks). -/
def isNeutralChar (c : Char) : Bool :=
  jsWhitespaceChar c ||
  (decide (0x30 ≤ c.toNat) && decide (c.toNat ≤ 0x39)) ||
  (decide (0x21 ≤ c.toNat) && decide (c.toNat ≤ 0x2F)) ||
  (decide (0x3A ≤ c.toNat) && decide (c.toNat ≤ 0x40)) ||
  (decide (0x5B ≤ c.toNat) && decide (c.toNat ≤ 0x60)) ||
  (decide (0x7B ≤ c.toNat) && decide (c.toNat ≤ 0x7E)) ||
  (decide (0x2010 ≤ c.toNat) && decide (c.toNat ≤ 0x2027)) ||
  (decide (0x2030 ≤ c.toNat) && decide (c.toNat ≤ 0x205E)) ||
  (decide (0x2190 ≤ c.toNat) && decide (c.toNat ≤ 0x23FF)) ||
  (decide (0x2500 ≤ c.toNat) && decide (c.toNat ≤ 0x27BF))

/-- Embeds `/^[\s\d\p{P}\p{S}]*$/u.test(grapheme)`: every character of the
grapheme is in the class (vacuously true for the empty string). -/
def isNeutralGrapheme (g : Grapheme) : Bool :=
  g.all isNeutralChar

/-! ## Bidi direction runs (`getBidiRuns`) -/

/-- One bidi direction run `{ text, direction, start, end }`. -/
structure BidiRun where
  text : JStr
  direction : Dir
  start : Nat
  «end» : Nat
  deriving DecidableEq, Repr

/-- JS `text.slice(a, b)` for `0 ≤ a ≤ b`. -/
def jsSlice (t : JStr) (a b : Nat) : JStr :=
  (t.drop a).take (b - a)

/-- The run-splitting loop of `getBidiRuns`: `levels` is the embedding
level sequence returned by the external `bidi-js`
(`bidi.getEmbeddingLevels(text, 'ltr').levels`), passed as an oracle;
the loop never reads `levels` at or beyond `text.length`.  The loop
`for (let i = 1; i <= text.length; i++)` is written with its remaining
iteration count (`text.length + 1 - i`) as structural fuel. -/
def getBidiRunsGo (levels : Nat → Nat) (text : JStr) :
    Nat → Nat → Nat → List BidiRun → List BidiRun
  | 0, _, _, runs => runs
  | fuel + 1, runStart, i, runs =>
    if i ≤ text.length then
      if i = text.length || levels i != levels runStart then
        getBidiRunsGo levels text fuel i (i + 1)
          (runs ++ [{ text := jsSlice text runStart i,
                      direction := if levels runStart % 2 = 0 then .ltr else .rtl,
                      start := runStart,
                      «end» := i }])
      else
        getBidiRunsGo levels text fuel runStart (i + 1) runs
    else runs

/-- Embeds `getBidiRuns(text)` from `text-processor.js`. -/
def getBidiRuns (levels : Nat → Nat) (text : JStr) : List BidiRun :=
  getBidiRunsGo levels text text.length 0 1 []

/-- The runs chain from position `s` to position `e`: the first starts
at `s`, each subsequent run starts where the previous one ended, the
last ends at `e` (contiguity and non-overlap in one predicate). -/
def runsChain : Nat → List BidiRun → Nat → Prop
  | s, [], e => s = e
  | s, r :: rs, e => r.start = s ∧ runsChain r.«end» rs e

/-! ## Grapheme segmentation

`segmentGraphemes` delegates to the platform's
`Intl.Segmenter('en', { granularity: 'grapheme' })`, which is not part
of the repository.  Modelled from the spec: §4.1 — extended grapheme
cluster boundaries (UAX#29-equivalent) so that "combining marks, ZWJ
emoji sequences, flag sequences, and keycap sequences remain single
units", restricted to exactly those mechanisms (CR LF, combining-mark /
variation-selector / skin-tone / keycap continuations, ZWJ joins, and
regional-indicator pairs). -/

/-- A cluster-continuation character: combining marks, variation
selectors, emoji skin-tone modifiers and the combining keycap. -/
def isExtendChar (c : Char) : Bool :=
  (decide (0x0300 ≤ c.toNat) && decide (c.toNat ≤ 0x036F)) ||
  (decide (0x0591 ≤ c.toNat) && decide (c.toNat ≤ 0x05C7)) ||
  (decide (0x064B ≤ c.toNat) && decide (c.toNat ≤ 0x065F)) ||
  (decide (0xFE00 ≤ c.toNat) && decide (c.toNat ≤ 0xFE0F)) ||
  (decide (0x1F3FB ≤ c.toNat) && decide (c.toNat ≤ 0x1F3FF)) ||
  c.toNat = 0x20E3

/-- A regional-indicator symbol (flag half). -/
def isRegionalIndicator (c : Char) : Bool :=
  decide (0x1F1E6 ≤ c.toNat) && decide (c.toNat ≤ 0x1F1FF)

/-- The zero-width joiner. -/
def zwjChar : Char := Char.ofNat 0x200D

/-- Maximal prefix of continuation characters, with the rest. -/
def grabExtends : JStr → JStr × JStr
  | [] => ([], [])
  | c :: rest =>
    if isExtendChar c then
      let (e, r) := grabExtends rest
      (c :: e, r)
    else ([], c :: rest)

/-- Absorb `(ZWJ base extends)*` continuations of an emoji cluster; the
fuel bounds the recursion by the input length. -/
def grabJoins : Nat → JStr → JStr × JStr
  | 0, s => ([], s)
  | fuel + 1, s =>
    match s with
    | c :: b :: rest =>
      if c = zwjChar then
        let (e, r) := grabExtends rest
        let (j, r2) := grabJoins fuel r
        (c :: b :: (e ++ j), r2)
      else ([], s)
    | _ => ([], s)

/-- Take one extended grapheme cluster from the head of the string. -/
def takeCluster : JStr → Grapheme × JStr
  | [] => ([], [])
  | c :: rest =>
    if c.toNat = 0x0D ∧ rest.head? = some (Char.ofNat 0x0A) then
      ([c, Char.ofNat 0x0A], rest.tail)
    else if isRegionalIndicator c then
      match rest with
      | c2 :: rest2 =>
        if isRegionalIndicator c2 then
          let (e, r) := grabExtends rest2
          (c :: c2 :: e, r)
        else
          let (e, r) := grabExtends rest
          (c :: e, r)
      | [] => ([c], [])
    else
      let (e, r) := grabExtends rest
      let (j, r2) := grabJoins r.length r
      (c :: (e ++ j), r2)

/-- Segmentation worker; the fuel bounds the recursion by the input
length (each cluster is nonempty on nonempty input). -/
def segmentGraphemesGo : Nat → JStr → List Grapheme
  | 0, _ => []
  | fuel + 1, s =>
    match s with
    | [] => []
    | c :: rest =>
      let (cl, r) := takeCluster (c :: rest)
      cl :: segmentGraphemesGo fuel r

/-- Embeds `segmentGraphemes(text)`. -/
def segmentGraphemes (s : JStr) : List Grapheme :=
  segmentGraphemesGo s.length s

/-! ## Font-run segmentation (`segmentByFont`) -/

/-- The run type tag (`'text' | 'emoji' | 'fallback' | 'newline'`). -/
inductive RunType
  | text
  | emoji
  | fallback
  | newline
  deriving DecidableEq, Repr

/-- One font run
`{ type, chars, font, graphemes, emojiSvg? }`; `emojiSvg` is set only on
emoji runs. -/
structure FontRun where
  type : RunType
  chars : JStr
  font : Option Font
  graphemes : List Grapheme
  emojiSvg : Option JStr := none
  deriving DecidableEq, Repr

/-- The inputs of `segmentByFont`: the primary font, the
script-entry-keyed international font map (`none` models passing
`null`/`undefined`; the legacy non-`Map` branch of
`resolveInternationalFont` is not exercised by the renderer and is not
modelled), the fallback font, the prefetched emoji cache
(`none` = key absent, `some none` = cached `null`), the emoji switch and
the owning bidi run's direction. -/
structure FontConfig where
  primaryFont : Option Font
  internationalFonts : Option (Script → Option Font)
  fallbackFont : Option Font
  emojiCache : Grapheme → Option (Option JStr)
  enableEmoji : Bool
  direction : Dir

/-- Embeds `resolveInternationalFont(char, internationalFonts)` (the `Map`
branch: `internationalFonts.get(scriptEntry) || null`). -/
def resolveInternationalFont (g : Grapheme) (intl : Option (Script → Option Font)) :
    Option Font :=
  match intl with
  | none => none
  | some m =>
    match getScriptFont g with
    | none => none
    | some entry => m entry

/-- The mutable segmentation state: the finished runs and the run being
grown (`currentRun`; only text runs live there). -/
structure SegState where
  runs : List FontRun
  currentRun : Option FontRun
  deriving DecidableEq, Repr

/-- Embeds `pushRun()`: append `currentRun` to the finished runs when it has a
nonempty `chars`, and clear it. -/
def segPush (st : SegState) : SegState :=
  match st.currentRun with
  | some r =>
    if 0 < r.chars.length then { runs := st.runs ++ [r], currentRun := none }
    else { runs := st.runs, currentRun := none }
  | none => { runs := st.runs, currentRun := none }

/-- Embeds `enableEmoji && isEmoji(grapheme) && emojiCache.has(grapheme) &&
emojiCache.get(grapheme)` (a cached empty string is falsy, like `null`). -/
def emojiHit (cfg : FontConfig) (g : Grapheme) : Bool :=
  cfg.enableEmoji && isEmoji g &&
    (match cfg.emojiCache g with
     | some (some s) => decide (s ≠ [])
     | _ => false)

/-- The body of the `segmentByFont` loop for one grapheme. -/
def segStep (cfg : FontConfig) (st : SegState) (g : Grapheme) : SegState :=
  if g = ['\n'] || g = ['\r'] then
    let st1 := segPush st
    { runs := st1.runs ++ [{ type := .newline, chars := g, font := none, graphemes := [g] }],
      currentRun := none }
  else if emojiHit cfg g then
    let st1 := segPush st
    let svg : Option JStr :=
      match cfg.emojiCache g with
      | some (some s) => some s
      | _ => none
    { runs := st1.runs ++ [{ type := .emoji, chars := g, font := none, graphemes := [g],
                             emojiSvg := svg }],
      currentRun := none }
  else
    let scriptFont : Option Font := resolveInternationalFont g cfg.internationalFonts
    -- let font = scriptFont || primaryFont; if (!font && fallbackFont) font = fallbackFont;
    let font1 : Option Font :=
      (scriptFont.orElse fun _ => cfg.primaryFont).orElse fun _ => cfg.fallbackFont
    -- rtl neutral inheritance: font = currentRun.font
    let font2 : Option Font :=
      match st.currentRun with
      | some cr =>
        if cfg.direction = .rtl ∧ scriptFont = none ∧ cr.type = .text ∧
            isNeutralGrapheme g then cr.font
        else font1
      | none => font1
    match font2 with
    | none =>
      let st1 := segPush st
      { runs := st1.runs ++ [{ type := .fallback, chars := g, font := none, graphemes := [g] }],
        currentRun := none }
    | some f =>
      match st.currentRun with
      | some cr =>
        if cr.type = .text ∧ cr.font = some f then
          { st with currentRun := some { cr with chars := cr.chars ++ g,
                                                 graphemes := cr.graphemes ++ [g] } }
        else
          let st1 := segPush st
          { runs := st1.runs,
            currentRun := some { type := .text, chars := g, font := some f, graphemes := [g] } }
      | none =>
        let st1 := segPush st
        { runs := st1.runs,
          currentRun := some { type := .text, chars := g, font := some f, graphemes := [g] } }

/-- Embeds `segmentByFont(graphemes, ...)`: fold the loop body over the
grapheme sequence and flush the final run. -/
def segmentByFont (cfg : FontConfig) (gs : List Grapheme) : List FontRun :=
  (segPush (gs.foldl (segStep cfg) { runs := [], currentRun := none })).runs

/-- The per-cluster font assignment read back from the output runs:
each run contributes its font once per grapheme it carries. -/
def assignedFonts (runs : List FontRun) : List (Option Font) :=
  runs.flatMap fun r => r.graphemes.map fun _ => r.font

/-- All graphemes held by a segmentation state, finished runs first,
then the run being grown. -/
def stateGraphemes (st : SegState) : List Grapheme :=
  (st.runs.map FontRun.graphemes).flatten ++
    (match st.currentRun with
     | some r => r.graphemes
     | none => [])

/-- The segmentation invariant: every run (finished or being grown)
carries at least one grapheme and a nonempty `chars`. -/
def SegInv (st : SegState) : Prop :=
  (∀ r ∈ st.runs, r.graphemes ≠ [] ∧ r.chars ≠ []) ∧
  (∀ r, st.currentRun = some r → r.graphemes ≠ [] ∧ r.chars ≠ [])

/-- The spec's neutral cluster class, for comparison with the
implementation.  Modelled from the spec: glossary — "Neutral cluster:
whitespace, punctuation, or digit lacking inherent text direction."
Whitespace is the JS `\s` class; digits cover ASCII and Arabic-Indic;
punctuation covers ASCII punctuation, general punctuation and the
Arabic/Hebrew punctuation signs exercised here (the full Unicode
category tables are not reproduced). -/
def claimNeutralChar (c : Char) : Bool :=
  jsWhitespaceChar c ||
  -- digits (Nd)
  (decide (0x30 ≤ c.toNat) && decide (c.toNat ≤ 0x39)) ||
  (decide (0x0660 ≤ c.toNat) && decide (c.toNat ≤ 0x0669)) ||
  (decide (0x06F0 ≤ c.toNat) && decide (c.toNat ≤ 0x06F9)) ||
  -- punctuation (P)
  "!\"#%&'()*,-./:;?@[]_\x7b\x7d\\".toList.contains c ||
  (decide (0x2010 ≤ c.toNat) && decide (c.toNat ≤ 0x2027)) ||
  (decide (0x2030 ≤ c.toNat) && decide (c.toNat ≤ 0x205E)) ||
  c.toNat = 0x060C || c.toNat = 0x061B || c.toNat = 0x061F ||
  c.toNat = 0x05BE || c.toNat = 0x05C0 || c.toNat = 0x05C3 ||
  c.toNat = 0x05F3 || c.toNat = 0x05F4

/-- A cluster is neutral in the spec's sense when all its characters
are. -/
def claimNeutralGrapheme (g : Grapheme) : Bool :=
  g.all claimNeutralChar

/-! ## Path assembly (`generateTextPaths` / `shapeAndRender`)

The emitted markup fragments are modelled structurally: each template
literal of the source becomes a `Part` constructor carrying exactly the
values interpolated into it.  The glyph paths produced by the external
HarfBuzz shaper for one text run are abstracted into a single
`Part.shaped` recording the arguments the source passes to
`shapeAndRender` (font, run text, cursor, font size, fill, feature
string, direction); the advance it returns comes from a shaper oracle
in font units, scaled by `fontSize / upem` as in the source. -/

/-- One emitted markup fragment. -/
inductive Part
  | shaped (font : Font) (chars : JStr) (x y : ℚ) (fontSize : ℚ) (fill : JStr)
      (features : JStr) (direction : Dir)
  | emojiGroup (tx ty : ℚ) (scale : ℚ) (content : JStr)
  | textNode (x y : ℚ) (fontFamily : JStr) (fontSize : ℚ) (fill : JStr)
      (fontWeight : ℚ) (content : JStr)
  deriving DecidableEq, Repr

/-- Index of the first occurrence of `pat` as a substring of `s`. -/
def firstSubstrIdx (pat s : JStr) : Option Nat :=
  (List.range (s.length + 1)).find? fun i => pat.isPrefixOf (s.drop i)

/-- Index of the last occurrence of `pat` as a substring of `s`. -/
def lastSubstrIdx (pat s : JStr) : Option Nat :=
  ((List.range (s.length + 1)).filter fun i => pat.isPrefixOf (s.drop i)).getLast?

/-- Index of the first occurrence of the character `c` in `s`. -/
def firstCharIdx (c : Char) (s : JStr) : Option Nat :=
  (List.range s.length).find? fun i => s.get? i = some c

/-- Embeds `svg.match(/<svg[^>]*>(.*)<\/svg>/s)?.[1]`: the capture between the
opening `<svg ...>` tag (first `<svg`, first `>` after it — `[^>]*`
admits no earlier `>`) and the last `</svg>` (greedy `.*` under `/s`).
The regex engine's retry at later `<svg` positions after a failure is
not modelled; no input in this development exercises it. -/
def svgMatchInner (s : JStr) : Option JStr :=
  match firstSubstrIdx "<svg".toList s with
  | none => none
  | some i =>
    let afterTag := s.drop (i + 4)
    match firstCharIdx '>' afterTag with
    | none => none
    | some j =>
      let rest := afterTag.drop (j + 1)
      match lastSubstrIdx "</svg>".toList rest with
      | none => none
      | some k => some (rest.take k)

/-- The per-render-call constants of `generateTextPaths`, with the two
external capabilities it consumes while assembling: the shaper oracle
(`hb.shape` glyph advances, summed in font units) and each font's
units-per-em. -/
structure LayoutConfig where
  x : ℚ
  fontSize : ℚ
  fill : JStr
  fontWeight : ℚ
  primaryFont : Option Font
  featureString : JStr
  shapeAdvanceUnits : Font → JStr → JStr → Dir → ℚ
  upem : Font → ℚ

/-- The layout cursor and the fragments emitted so far. -/
structure LayoutState where
  parts : List Part
  currentX : ℚ
  currentY : ℚ
  deriving DecidableEq, Repr

/-- The body of the `generateTextPaths` run loop for one font run. -/
def layoutStep (cfg : LayoutConfig) (direction : Dir) (st : LayoutState)
    (run : FontRun) : LayoutState :=
  match run.type with
  | .newline =>
    if run.chars = ['\n'] then
      { st with currentX := cfg.x, currentY := st.currentY + cfg.fontSize * 1.2 }
    else st
  | .emoji =>
    match run.emojiSvg with
    | some svg =>
      match svgMatchInner svg with
      | some inner =>
        { parts := st.parts ++
            [.emojiGroup st.currentX (st.currentY - cfg.fontSize * 0.75)
              (cfg.fontSize / 36) inner],
          currentX := st.currentX + cfg.fontSize,
          currentY := st.currentY }
      | none => st
    | none => st  -- unreachable: segmentByFont only builds emoji runs from a cached svg
  | .fallback =>
    { parts := st.parts ++
        [.textNode st.currentX st.currentY (getFontFamilyCSS run.chars) cfg.fontSize
          cfg.fill cfg.fontWeight (escapeXml run.chars)],
      currentX := st.currentX + (if isCJK run.chars then cfg.fontSize else cfg.fontSize * 0.6),
      currentY := st.currentY }
  | .text =>
    -- const features = (run.font === primaryFont) ? featureString : '';
    let features : JStr := if run.font = cfg.primaryFont then cfg.featureString else []
    match run.font with
    | some f =>
      { parts := st.parts ++
          [.shaped f run.chars st.currentX st.currentY cfg.fontSize cfg.fill features
            direction],
        currentX := st.currentX +
          cfg.shapeAdvanceUnits f run.chars features direction * (cfg.fontSize / cfg.upem f),
        currentY := st.currentY }
    | none => st  -- unreachable: segmentByFont only builds text runs around a font

/-- Process the font runs of one bidi run. -/
def layoutRuns (cfg : LayoutConfig) (direction : Dir) (st : LayoutState)
    (runs : List FontRun) : LayoutState :=
  runs.foldl (layoutStep cfg direction) st

/-- Everything `generateTextPaths` consumes: the node's attributes, the
fonts, the prefetched emoji cache, the options, the shaper oracle and
the bidi-js level oracle for the input text. -/
structure RenderConfig where
  x : ℚ
  y : ℚ
  fontSize : ℚ
  fill : JStr
  primaryFont : Option Font
  internationalFonts : Option (Script → Option Font)
  fallbackFont : Option Font
  emojiCache : Grapheme → Option (Option JStr)
  enableEmoji : Bool
  fontWeight : ℚ
  featureString : JStr
  shapeAdvanceUnits : Font → JStr → JStr → Dir → ℚ
  upem : Font → ℚ
  levels : Nat → Nat

/-- The `LayoutConfig` slice of a `RenderConfig`. -/
def RenderConfig.layout (rc : RenderConfig) : LayoutConfig :=
  { x := rc.x, fontSize := rc.fontSize, fill := rc.fill, fontWeight := rc.fontWeight,
    primaryFont := rc.primaryFont, featureString := rc.featureString,
    shapeAdvanceUnits := rc.shapeAdvanceUnits, upem := rc.upem }

/-- The `FontConfig` slice of a `RenderConfig` for one bidi run. -/
def RenderConfig.fontCfg (rc : RenderConfig) (d : Dir) : FontConfig :=
  { primaryFont := rc.primaryFont, internationalFonts := rc.internationalFonts,
    fallbackFont := rc.fallbackFont, emojiCache := rc.emojiCache,
    enableEmoji := rc.enableEmoji, direction := d }

/-- The content-assembly pipeline of `generateTextPaths` (with the
default `textAnchor: 'start'`, under which the assembled content is
returned as is): bidi runs, per-run grapheme segmentation, per-run font
segmentation, then the run loop threading one cursor. -/
def generateTextPaths (rc : RenderConfig) (text : JStr) : LayoutState :=
  (getBidiRuns rc.levels text).foldl
    (fun st br =>
      layoutRuns rc.layout br.direction st
        (segmentByFont (rc.fontCfg br.direction) (segmentGraphemes br.text)))
    { parts := [], currentX := rc.x, currentY := rc.y }

/-! ## The font-loader cache under concurrency
(`FontLoader._loadLocalFont` / `FontLoader._fetchGoogleFont`)

Both loaders run, per request: a synchronous slice that checks
`_fontCache` and — on a miss — begins the underlying load (file read /
network fetch), then `await`s; and a completion slice that builds the
font object, writes it into `_fontCache` and returns it.  On the JS
event loop each slice is atomic and slices of concurrent requests
interleave at the `await` points.  A load is modelled as producing a
fresh font object (numbered from 100 by load order). -/

/-- One requester's position in its lifecycle. -/
inductive ReqPC
  | start
  | loading (result : Font)
  | done (result : Font)
  deriving DecidableEq, Repr

/-- The shared cache (for one `(family, weight)` key), the number of
underlying loads started, the sequence of cache writes, and each
requester's state. -/
structure LoaderState where
  cache : Option Font
  loadCount : Nat
  writes : List Font
  reqs : List ReqPC
  deriving DecidableEq, Repr

/-- Run one atomic slice of requester `i`. -/
def loaderStep (s : LoaderState) (i : Nat) : LoaderState :=
  match s.reqs.get? i with
  | some .start =>
    match s.cache with
    | some v => { s with reqs := s.reqs.set i (.done v) }
    | none =>
      { s with loadCount := s.loadCount + 1,
               reqs := s.reqs.set i (.loading (100 + s.loadCount)) }
  | some (.loading v) =>
    { s with cache := some v, writes := s.writes ++ [v], reqs := s.reqs.set i (.done v) }
  | _ => s

/-- Run `n` concurrent requests for the same cache key under the given
interleaving (a list of requester indices, one per atomic slice). -/
def runLoader (n : Nat) (schedule : List Nat) : LoaderState :=
  schedule.foldl loaderStep
    { cache := none, loadCount := 0, writes := [], reqs := List.replicate n .start }

/-- The stylistic-alternate substitution of the opentype.js backend
(`generateTextPaths`, second text processor): `if (glyphIndex > 0 &&
font === primaryFont && glyphSubMap.has(glyphIndex)) glyphIndex =
glyphSubMap.get(glyphIndex)`. -/
def applyGlyphSub (glyphSubMap : Nat → Option Nat) (font primaryFont : Option Font)
    (glyphIndex : Nat) : Nat :=
  if 0 < glyphIndex ∧ font = primaryFont ∧ (glyphSubMap glyphIndex).isSome then
    (glyphSubMap glyphIndex).getD glyphIndex
  else glyphIndex

/-- A shaped run whose font is not the primary font was passed an empty
feature string; parts other than shaped runs carry no features. -/
def partNonPrimaryNoFeatures (primary : Option Font) : Part → Prop
  | .shaped f _ _ _ _ _ feats _ => some f ≠ primary → feats = []
  | _ => True

/-! ## Lemmas: XML escaping -/

lemma escapeXml_eq_flatMap (t : JStr) : escapeXml t = t.flatMap escapeChar := by
  unfold escapeXml replaceChar
  simp only [List.flatMap_assoc]
  refine congrArg (List.flatMap t) (funext fun c => ?_)
  by_cases hc1 : c = '&'
  · subst hc1; decide
  by_cases hc2 : c = '<'
  · subst hc2; decide
  by_cases hc3 : c = '>'
  · subst hc3; decide
  by_cases hc4 : c = '"'
  · subst hc4; decide
  by_cases hc5 : c = '\''
  · subst hc5; decide
  simp [escapeChar, hc1, hc2, hc3, hc4, hc5]

lemma noRawSpecials_append (a b : JStr) :
    noRawSpecials (a ++ b) = (noRawSpecials a && noRawSpecials b) := by
  simp [noRawSpecials]

lemma noRawSpecials_escapeChar (c : Char) : noRawSpecials (escapeChar c) = true := by
  unfold escapeChar
  by_cases hc1 : c = '&'
  · subst hc1; decide
  by_cases hc2 : c = '<'
  · subst hc2; decide
  by_cases hc3 : c = '>'
  · subst hc3; decide
  by_cases hc4 : c = '"'
  · subst hc4; decide
  by_cases hc5 : c = '\''
  · subst hc5; decide
  simp [noRawSpecials, hc1, hc2, hc3, hc4, hc5]

lemma ampOk_cons_of_ne (c : Char) (t : JStr) (h : ¬c = '&') :
    ampOk (c :: t) = ampOk t := by
  simp [ampOk, h]

lemma ampOk_escapeChar_append (c : Char) (t : JStr) :
    ampOk (escapeChar c ++ t) = ampOk t := by
  unfold escapeChar
  by_cases hc1 : c = '&'
  · subst hc1
    show ampOk ('&' :: ("amp;".toList ++ t)) = ampOk t
    rw [ampOk]
    rw [if_pos rfl]
    have hpre : entityTail ("amp;".toList ++ t) = true := by
      unfold entityTail
      rw [List.isPrefixOf_iff_prefix.mpr (List.prefix_append _ _)]
      simp
    rw [hpre]
    have : ampOk ("amp;".toList ++ t) = ampOk t := by
      show ampOk ('a' :: 'm' :: 'p' :: ';' :: t) = ampOk t
      rw [ampOk_cons_of_ne _ _ (by decide), ampOk_cons_of_ne _ _ (by decide),
          ampOk_cons_of_ne _ _ (by decide), ampOk_cons_of_ne _ _ (by decide)]
    rw [this]
    simp
  by_cases hc2 : c = '<'
  · subst hc2
    show ampOk ('&' :: ("lt;".toList ++ t)) = ampOk t
    rw [ampOk, if_pos rfl]
    have hpre : entityTail ("lt;".toList ++ t) = true := by
      unfold entityTail
      rw [List.isPrefixOf_iff_prefix.mpr (List.prefix_append "lt;".toList t)]
      simp
    rw [hpre]
    have : ampOk ("lt;".toList ++ t) = ampOk t := by
      show ampOk ('l' :: 't' :: ';' :: t) = ampOk t
      rw [ampOk_cons_of_ne _ _ (by decide), ampOk_cons_of_ne _ _ (by decide),
          ampOk_cons_of_ne _ _ (by decide)]
    rw [this]
    simp
  by_cases hc3 : c = '>'
  · subst hc3
    show ampOk ('&' :: ("gt;".toList ++ t)) = ampOk t
    rw [ampOk, if_pos rfl]
    have hpre : entityTail ("gt;".toList ++ t) = true := by
      unfold entityTail
      rw [List.isPrefixOf_iff_prefix.mpr (List.prefix_append "gt;".toList t)]
      simp
    rw [hpre]
    have : ampOk ("gt;".toList ++ t) = ampOk t := by
      show ampOk ('g' :: 't' :: ';' :: t) = ampOk t
      rw [ampOk_cons_of_ne _ _ (by decide), ampOk_cons_of_ne _ _ (by decide),
          ampOk_cons_of_ne _ _ (by decide)]
    rw [this]
    simp
  by_cases hc4 : c = '"'
  · subst hc4
    show ampOk ('&' :: ("quot;".toList ++ t)) = ampOk t
    rw [ampOk, if_pos rfl]
    have hpre : entityTail ("quot;".toList ++ t) = true := by
      unfold entityTail
      rw [List.isPrefixOf_iff_prefix.mpr (List.prefix_append "quot;".toList t)]
      simp
    rw [hpre]
    have : ampOk ("quot;".toList ++ t) = ampOk t := by
      show ampOk ('q' :: 'u' :: 'o' :: 't' :: ';' :: t) = ampOk t
      rw [ampOk_cons_of_ne _ _ (by decide), ampOk_cons_of_ne _ _ (by decide),
          ampOk_cons_of_ne _ _ (by decide), ampOk_cons_of_ne _ _ (by decide),
          ampOk_cons_of_ne _ _ (by decide)]
    rw [this]
    simp
  by_cases hc5 : c = '\''
  · subst hc5
    show ampOk ('&' :: ("apos;".toList ++ t)) = ampOk t
    rw [ampOk, if_pos rfl]
    have hpre : entityTail ("apos;".toList ++ t) = true := by
      unfold entityTail
      rw [List.isPrefixOf_iff_prefix.mpr (List.prefix_append "apos;".toList t)]
      simp
    rw [hpre]
    have : ampOk ("apos;".toList ++ t) = ampOk t := by
      show ampOk ('a' :: 'p' :: 'o' :: 's' :: ';' :: t) = ampOk t
      rw [ampOk_cons_of_ne _ _ (by decide), ampOk_cons_of_ne _ _ (by decide),
          ampOk_cons_of_ne _ _ (by decide), ampOk_cons_of_ne _ _ (by decide),
          ampOk_cons_of_ne _ _ (by decide)]
    rw [this]
    simp
  · simp only [if_neg hc1, if_neg hc2, if_neg hc3, if_neg hc4, if_neg hc5]
    show ampOk (c :: t) = ampOk t
    exact ampOk_cons_of_ne c t hc1

lemma ampOk_flatMap_escapeChar (t : JStr) : ampOk (t.flatMap escapeChar) = true := by
  induction t with
  | nil => rfl
  | cons c rest ih =>
    rw [List.flatMap_cons, ampOk_escapeChar_append, ih]

lemma noRawSpecials_flatMap_escapeChar (t : JStr) :
    noRawSpecials (t.flatMap escapeChar) = true := by
  induction t with
  | nil => rfl
  | cons c rest ih =>
    rw [List.flatMap_cons, noRawSpecials_append, noRawSpecials_escapeChar, ih]
    rfl

/-! ## Lemmas: grapheme segmentation -/

lemma grabExtends_append (s : JStr) : (grabExtends s).1 ++ (grabExtends s).2 = s := by
  induction s with
  | nil => rfl
  | cons c rest ih =>
    unfold grabExtends
    by_cases h : isExtendChar c = true
    · simp only [h, if_true]
      simpa using ih
    · simp [h]

lemma grabJoins_append (fuel : Nat) :
    ∀ s : JStr, (grabJoins fuel s).1 ++ (grabJoins fuel s).2 = s := by
  induction fuel with
  | zero => intro s; rfl
  | succ n ih =>
    intro s
    match s with
    | [] => rfl
    | [c] => rfl
    | c :: b :: rest =>
      unfold grabJoins
      by_cases h : c = zwjChar
      · simp only [h, if_true]
        have h1 := grabExtends_append rest
        have h2 := ih (grabExtends rest).2
        simp only [List.cons_append, List.append_assoc]
        rw [h2, h1]
      · simp [h]

lemma takeCluster_append (s : JStr) :
    (takeCluster s).1 ++ (takeCluster s).2 = s := by
  match s with
  | [] => rfl
  | c :: rest =>
    simp only [takeCluster]
    by_cases hcr : c.toNat = 0x0D ∧ rest.head? = some (Char.ofNat 0x0A)
    · rw [if_pos hcr]
      obtain ⟨-, h2⟩ := hcr
      match rest, h2 with
      | r :: rest2, h2 =>
        simp only [List.head?_cons, Option.some.injEq] at h2
        subst h2
        rfl
    · rw [if_neg hcr]
      by_cases hri : isRegionalIndicator c = true
      · simp only [hri, if_true]
        match rest with
        | [] => rfl
        | c2 :: rest2 =>
          by_cases hri2 : isRegionalIndicator c2 = true
          · simp only [hri2, if_true]
            have := grabExtends_append rest2
            simp only [List.cons_append]
            rw [this]
          · simp only [hri2, Bool.false_eq_true, if_false]
            have := grabExtends_append (c2 :: rest2)
            simp only [List.cons_append]
            rw [this]
      · simp only [hri, Bool.false_eq_true, if_false]
        have h1 := grabExtends_append rest
        have h2 := grabJoins_append (grabExtends rest).2.length (grabExtends rest).2
        simp only [List.cons_append, List.append_assoc]
        rw [h2, h1]

lemma takeCluster_ne_nil (s : JStr) (h : s ≠ []) : (takeCluster s).1 ≠ [] := by
  match s with
  | c :: rest =>
    simp only [takeCluster]
    by_cases hcr : c.toNat = 0x0D ∧ rest.head? = some (Char.ofNat 0x0A)
    · rw [if_pos hcr]; simp
    · rw [if_neg hcr]
      by_cases hri : isRegionalIndicator c = true
      · simp only [hri, if_true]
        match rest with
        | [] => simp
        | c2 :: rest2 =>
          by_cases hri2 : isRegionalIndicator c2 = true
          · simp [hri2]
          · simp [hri2]
      · simp [hri]

lemma takeCluster_snd_lt (s : JStr) (h : s ≠ []) :
    (takeCluster s).2.length < s.length := by
  have happ := takeCluster_append s
  have hne := takeCluster_ne_nil s h
  have : (takeCluster s).1.length + (takeCluster s).2.length = s.length := by
    rw [← List.length_append, happ]
  have : 0 < (takeCluster s).1.length := List.length_pos.mpr hne
  omega

lemma segmentGraphemesGo_flatten (fuel : Nat) :
    ∀ s : JStr, s.length ≤ fuel → (segmentGraphemesGo fuel s).flatten = s := by
  induction fuel with
  | zero =>
    intro s hs
    have : s = [] := List.length_eq_zero.mp (Nat.le_zero.mp hs)
    subst this
    rfl
  | succ n ih =>
    intro s hs
    match s with
    | [] => rfl
    | c :: rest =>
      unfold segmentGraphemesGo
      simp only [List.flatten_cons]
      have hlt := takeCluster_snd_lt (c :: rest) (by simp)
      have : (takeCluster (c :: rest)).2.length ≤ n := by
        simp only [List.length_cons] at hlt hs
        omega
      rw [ih _ this, takeCluster_append]

lemma segmentGraphemes_flatten (s : JStr) : (segmentGraphemes s).flatten = s :=
  segmentGraphemesGo_flatten s.length s le_rfl

/-! ## Lemmas: bidi runs -/

lemma runsChain_append_singleton (s m : Nat) (rs : List BidiRun) (r : BidiRun)
    (hchain : runsChain s rs m) (hstart : r.start = m) :
    runsChain s (rs ++ [r]) r.«end» := by
  induction rs generalizing s with
  | nil =>
    cases hchain
    exact ⟨hstart, rfl⟩
  | cons r0 rs ih =>
    obtain ⟨h0, hrest⟩ := hchain
    exact ⟨h0, ih _ hrest⟩

lemma getBidiRunsGo_spec (levels : Nat → Nat) (text : JStr) :
    ∀ fuel i runStart runs,
      text.length + 1 - i = fuel →
      runStart < i →
      i ≤ text.length + 1 →
      (i = text.length + 1 → runStart = text.length) →
      runsChain 0 runs runStart →
      (runs.map BidiRun.text).flatten = text.take runStart →
      runsChain 0 (getBidiRunsGo levels text fuel runStart i runs) text.length ∧
        ((getBidiRunsGo levels text fuel runStart i runs).map BidiRun.text).flatten = text := by
  intro fuel
  induction fuel with
  | zero =>
    intro i runStart runs hfuel hlt hle hend hchain hjoin
    have hi : i = text.length + 1 := by omega
    have hrs : runStart = text.length := hend hi
    subst hrs
    refine ⟨hchain, ?_⟩
    show (runs.map BidiRun.text).flatten = text
    rw [hjoin, List.take_length]
  | succ n ih =>
    intro i runStart runs hfuel hlt hle hend hchain hjoin
    unfold getBidiRunsGo
    by_cases hi : i ≤ text.length
    · rw [if_pos hi]
      by_cases hsplit : (i = text.length || levels i != levels runStart) = true
      · rw [if_pos hsplit]
        refine ih (i + 1) i _ ?_ ?_ ?_ ?_ ?_ ?_
        · omega
        · omega
        · omega
        · intro h; omega
        · exact runsChain_append_singleton 0 runStart runs _ hchain rfl
        · rw [List.map_append, List.flatten_append, hjoin]
          simp only [List.map_cons, List.map_nil, List.flatten_cons, List.flatten_nil,
            List.append_nil]
          show text.take runStart ++ jsSlice text runStart i = text.take i
          unfold jsSlice
          rw [← List.take_add]
          congr 1
          omega
      · rw [if_neg hsplit]
        have hine : ¬i = text.length := by
          intro h
          apply hsplit
          simp [h]
        refine ih (i + 1) runStart runs ?_ ?_ ?_ ?_ hchain hjoin
        · omega
        · omega
        · omega
        · intro h; omega
    · exfalso; omega

/-! ## Lemmas: font-run segmentation -/

lemma segPush_of_none (st : SegState) (h : st.currentRun = none) :
    segPush st = { runs := st.runs, currentRun := none } := by
  unfold segPush
  rw [h]

lemma segPush_of_some (st : SegState) (r : FontRun) (h : st.currentRun = some r)
    (hr : r.chars ≠ []) :
    segPush st = { runs := st.runs ++ [r], currentRun := none } := by
  unfold segPush
  rw [h]
  dsimp only
  rw [if_pos (List.length_pos.mpr hr)]

lemma segPush_flatten (st : SegState) (hinv : SegInv st) :
    ((segPush st).runs.map FontRun.graphemes).flatten = stateGraphemes st ∧
    (segPush st).currentRun = none ∧
    ∀ r ∈ (segPush st).runs, r.graphemes ≠ [] ∧ r.chars ≠ [] := by
  cases h : st.currentRun with
  | none =>
    rw [segPush_of_none st h]
    refine ⟨?_, rfl, fun r hr => hinv.1 r hr⟩
    simp [stateGraphemes, h]
  | some r =>
    rw [segPush_of_some st r h (hinv.2 r h).2]
    refine ⟨?_, rfl, ?_⟩
    · simp [stateGraphemes, h]
    · intro r2 hr2
      simp only [List.mem_append, List.mem_singleton] at hr2
      rcases hr2 with hmem | hmem
      · exact hinv.1 r2 hmem
      · subst hmem; exact hinv.2 _ h

lemma appended_run_spec (st : SegState) (R : FontRun) (g : Grapheme)
    (hinv : SegInv st) (hgr : R.graphemes = [g]) (hch : R.chars ≠ []) :
    SegInv ({ runs := (segPush st).runs ++ [R], currentRun := none } : SegState) ∧
    stateGraphemes ({ runs := (segPush st).runs ++ [R], currentRun := none } : SegState) =
      stateGraphemes st ++ [g] := by
  obtain ⟨hflat, hcur, hruns⟩ := segPush_flatten st hinv
  refine ⟨⟨?_, ?_⟩, ?_⟩
  · intro r hr
    simp only [List.mem_append, List.mem_singleton] at hr
    rcases hr with hmem | hmem
    · exact hruns r hmem
    · subst hmem
      exact ⟨by simp [hgr], hch⟩
  · intro r hr
    cases hr
  · show ((((segPush st).runs ++ [R]).map FontRun.graphemes).flatten ++ _) = _
    simp only [List.map_append, List.flatten_append, List.map_cons, List.map_nil,
      List.flatten_cons, List.flatten_nil, List.append_nil]
    rw [hflat, hgr]

lemma new_currentRun_spec (st : SegState) (R : FontRun) (g : Grapheme)
    (hinv : SegInv st) (hgr : R.graphemes = [g]) (hch : R.chars ≠ []) :
    SegInv ({ runs := (segPush st).runs, currentRun := some R } : SegState) ∧
    stateGraphemes ({ runs := (segPush st).runs, currentRun := some R } : SegState) =
      stateGraphemes st ++ [g] := by
  obtain ⟨hflat, hcur, hruns⟩ := segPush_flatten st hinv
  refine ⟨⟨fun r hr => hruns r hr, ?_⟩, ?_⟩
  · intro r hr
    simp only [Option.some.injEq] at hr
    subst hr
    exact ⟨by simp [hgr], hch⟩
  · show ((segPush st).runs.map FontRun.graphemes).flatten ++ R.graphemes = _
    rw [hflat, hgr]

lemma merged_currentRun_spec (st : SegState) (cr : FontRun) (g : Grapheme)
    (h : st.currentRun = some cr) (hinv : SegInv st) (hg : g ≠ []) :
    SegInv (⟨st.runs, some ⟨cr.type, cr.chars ++ g, cr.font, cr.graphemes ++ [g], cr.emojiSvg⟩⟩ : SegState) ∧
    stateGraphemes
        (⟨st.runs, some ⟨cr.type, cr.chars ++ g, cr.font, cr.graphemes ++ [g], cr.emojiSvg⟩⟩ : SegState) =
      stateGraphemes st ++ [g] := by
  refine ⟨⟨fun r hr => hinv.1 r hr, ?_⟩, ?_⟩
  · intro r hr
    simp only [Option.some.injEq] at hr
    subst hr
    constructor
    · simp
    · simp [hg]
  · show (st.runs.map FontRun.graphemes).flatten ++ (cr.graphemes ++ [g]) = _
    simp [stateGraphemes, h]

lemma segStep_spec (cfg : FontConfig) (st : SegState) (g : Grapheme) (hg : g ≠ [])
    (hinv : SegInv st) :
    SegInv (segStep cfg st g) ∧
    stateGraphemes (segStep cfg st g) = stateGraphemes st ++ [g] := by
  unfold segStep
  dsimp only
  split
  · -- newline run
    exact appended_run_spec st _ g hinv rfl hg
  · split
    · -- emoji run
      exact appended_run_spec st _ g hinv rfl hg
    · -- font resolution
      split
      · -- no font: fallback run
        exact appended_run_spec st _ g hinv rfl hg
      · -- some font
        rename_i f heq
        split
        · -- an open current run
          rename_i cr heq2
          split
          · -- merge into the current run
            exact merged_currentRun_spec st cr g heq2 hinv hg
          · -- flush and start a new text run
            exact new_currentRun_spec st _ g hinv rfl (by exact hg)
        · -- no current run: start a new text run
          exact new_currentRun_spec st _ g hinv rfl (by exact hg)

lemma foldl_segStep_spec (cfg : FontConfig) (gs : List Grapheme) :
    ∀ st : SegState, (∀ g ∈ gs, g ≠ []) → SegInv st →
      SegInv (gs.foldl (segStep cfg) st) ∧
      stateGraphemes (gs.foldl (segStep cfg) st) = stateGraphemes st ++ gs := by
  induction gs with
  | nil =>
    intro st _ hinv
    exact ⟨hinv, by simp⟩
  | cons g gs ih =>
    intro st hne hinv
    rw [List.foldl_cons]
    have hstep := segStep_spec cfg st g (hne g (by simp)) hinv
    obtain ⟨h1, h2⟩ := ih (segStep cfg st g) (fun g2 hg2 => hne g2 (by simp [hg2])) hstep.1
    refine ⟨h1, ?_⟩
    rw [h2, hstep.2]
    simp


/-! ## Claim theorems -/

/-- C1: for every input string, the bidi runs returned by `getBidiRuns`
are contiguous and non-overlapping — the first starts at 0, each
subsequent run starts where the previous one ended, the last ends at
`text.length` (`runsChain 0 _ text.length`) — and concatenating the
runs' `text` fields in logical order reconstructs the input exactly.
This holds for every embedding-level sequence the external bidi-js
returns. -/
theorem getBidiRuns_partition (levels : Nat → Nat) (text : JStr) :
    runsChain 0 (getBidiRuns levels text) text.length ∧
    ((getBidiRuns levels text).map BidiRun.text).flatten = text := by
  unfold getBidiRuns
  refine getBidiRunsGo_spec levels text text.length 1 0 [] (by omega) (by omega) (by omega)
    (fun h => by omega) rfl ?_
  simp

/-- C8: grapheme segmentation is idempotent — segmenting the
concatenation of its own output yields the same cluster sequence — the
empty string yields the empty sequence, and (being a total function)
segmentation never fails.  The concatenation property
`(segmentGraphemes s).flatten = s` is included as the middle conjunct. -/
theorem segmentGraphemes_idempotent (s : JStr) :
    segmentGraphemes ((segmentGraphemes s).flatten) = segmentGraphemes s ∧
    (segmentGraphemes s).flatten = s ∧
    segmentGraphemes ([] : JStr) = [] := by
  refine ⟨?_, segmentGraphemes_flatten s, rfl⟩
  rw [segmentGraphemes_flatten]

/-- C9 (amended): for every sequence of nonempty graphemes — as the
grapheme segmenter produces — and every font configuration, the output
runs of `segmentByFont` partition the input (concatenating their
`graphemes` arrays yields the input), no output run is empty, and every
run carries exactly one of the four types.  The nonemptiness hypothesis
is forced: see the counterexample. -/
theorem segmentByFont_partition (cfg : FontConfig) (gs : List Grapheme)
    (hne : ∀ g ∈ gs, g ≠ ([] : Grapheme)) :
    ((segmentByFont cfg gs).map FontRun.graphemes).flatten = gs ∧
    (∀ r ∈ segmentByFont cfg gs, r.graphemes ≠ [] ∧ r.chars ≠ []) ∧
    (∀ r ∈ segmentByFont cfg gs,
      r.type = .text ∨ r.type = .emoji ∨ r.type = .fallback ∨ r.type = .newline) := by
  have hinit : SegInv ({ runs := [], currentRun := none } : SegState) := by
    refine ⟨by simp, ?_⟩
    intro r hr
    cases hr
  obtain ⟨hinv, hflat⟩ := foldl_segStep_spec cfg gs _ hne hinit
  obtain ⟨hf, hc, hr⟩ := segPush_flatten _ hinv
  unfold segmentByFont
  refine ⟨?_, hr, ?_⟩
  · rw [hf, hflat]
    simp [stateGraphemes]
  · intro r hmem
    cases h : r.type <;> simp

/-- C9 counterexample: for the input sequence holding one empty
grapheme (with a primary font present), `segmentByFont` returns no runs
at all — `pushRun` drops a zero-length text run — so concatenating the
output runs' `graphemes` arrays gives `[]`, not the input sequence. -/
theorem segmentByFont_partition_counterexample :
    ((segmentByFont
        { primaryFont := some 0, internationalFonts := none, fallbackFont := none,
          emojiCache := fun _ => none, enableEmoji := true, direction := .ltr }
        [([] : Grapheme)]).map FontRun.graphemes).flatten ≠ [([] : Grapheme)] := by
  decide

/-- C9 witness: the amended theorem applied to the one-cluster input
`["A"]`. -/
theorem segmentByFont_partition_witness :
    ((segmentByFont
        { primaryFont := some 0, internationalFonts := none, fallbackFont := none,
          emojiCache := fun _ => none, enableEmoji := true, direction := .ltr }
        [(['A'] : Grapheme)]).map FontRun.graphemes).flatten = [(['A'] : Grapheme)] :=
  (segmentByFont_partition
    { primaryFont := some 0, internationalFonts := none, fallbackFont := none,
      emojiCache := fun _ => none, enableEmoji := true, direction := .ltr }
    [(['A'] : Grapheme)] (by intro g hg; simp at hg; simp [hg])).1

/-- C10: every native-text fallback node emitted by the assembler embeds
its cluster through `escapeXml` (third conjunct, read off the fallback
branch of `layoutStep`), and for every input string the escaped output
contains no raw markup special and every ampersand in it begins one of
the five entities — so fallback text cannot break the emitted markup. -/
theorem escapeXml_fallback_safe (s : JStr) :
    noRawSpecials (escapeXml s) = true ∧
    ampOk (escapeXml s) = true ∧
    ∀ (cfg : LayoutConfig) (d : Dir) (st : LayoutState) (run : FontRun),
      run.type = .fallback →
      (layoutStep cfg d st run).parts = st.parts ++
        [.textNode st.currentX st.currentY (getFontFamilyCSS run.chars) cfg.fontSize
          cfg.fill cfg.fontWeight (escapeXml run.chars)] := by
  refine ⟨?_, ?_, ?_⟩
  · rw [escapeXml_eq_flatMap]
    exact noRawSpecials_flatMap_escapeChar s
  · rw [escapeXml_eq_flatMap]
    exact ampOk_flatMap_escapeChar s
  · intro cfg d st run h
    unfold layoutStep
    rw [h]

/-- C10 witness: the theorem applied to a concrete fallback run holding
a raw `<`. -/
theorem escapeXml_fallback_safe_witness :
    (layoutStep
        { x := 0, fontSize := 16, fill := "red".toList, fontWeight := 700,
          primaryFont := some 0, featureString := [],
          shapeAdvanceUnits := fun _ _ _ _ => 0, upem := fun _ => 1000 } .ltr
        { parts := [], currentX := 5, currentY := 7 }
        { type := .fallback, chars := ['<'], font := none, graphemes := [['<']] }).parts =
      [] ++ [.textNode 5 7 (getFontFamilyCSS ['<']) 16 "red".toList 700 (escapeXml ['<'])] :=
  (escapeXml_fallback_safe ['<']).2.2
    { x := 0, fontSize := 16, fill := "red".toList, fontWeight := 700,
      primaryFont := some 0, featureString := [],
      shapeAdvanceUnits := fun _ _ _ _ => 0, upem := fun _ => 1000 } .ltr
    { parts := [], currentX := 5, currentY := 7 }
    { type := .fallback, chars := ['<'], font := none, graphemes := [['<']] } rfl



/-- C2 counterexample: in an rtl run `[א, ،, .]` (Hebrew letter, Arabic
comma, full stop) with the Hebrew script font 1, the Arabic script
font 2 and primary font 0: the full stop is a neutral cluster with no
script-specific match whose immediately preceding non-neutral cluster
is the Hebrew letter (the Arabic comma is punctuation, hence neutral),
and that cluster's assigned font is 1 — yet the full stop is assigned
font 2, inherited from the Arabic comma's run, whose script-specific
font interrupts the chain.  So the claimed assignment fails. -/
theorem segStep_rtl_neutral_counterexample :
    claimNeutralGrapheme ['.'] = true ∧
    getScriptFont ['.'] = none ∧
    claimNeutralGrapheme [Char.ofNat 0x060C] = true ∧
    claimNeutralGrapheme [Char.ofNat 0x05D0] = false ∧
    assignedFonts (segmentByFont
      { primaryFont := some 0,
        internationalFonts := some fun sc =>
          match sc with
          | .hebrew => some 1
          | .arabic => some 2
          | _ => none,
        fallbackFont := none, emojiCache := fun _ => none, enableEmoji := true,
        direction := .rtl }
      [[Char.ofNat 0x05D0], [Char.ofNat 0x060C], ['.']]) =
      [some 1, some 2, some 2] ∧
    (some 2 : Option Font) ≠ some 1 := by
  refine ⟨by decide, by decide, by decide, by decide, by decide, by decide⟩

/-- C2 (amended): inside an rtl bidi run, a neutral cluster (in the
source's neutral class) with no script-specific match inherits the font
of the currently open text run — that is, the font assigned to the
immediately preceding cluster when that cluster lies in a text run —
and is merged into that run; when no text run is open (at the start of
the run) it defaults to the primary or fallback font as usual, opening
a fresh text run, or to a fallback run when neither font exists. -/
theorem segStep_rtl_neutral_inherits (cfg : FontConfig) (st : SegState) (g : Grapheme)
    (hdir : cfg.direction = .rtl)
    (hn1 : g ≠ ['\n']) (hn2 : g ≠ ['\r'])
    (hem : emojiHit cfg g = false)
    (hscript : resolveInternationalFont g cfg.internationalFonts = none)
    (hneut : isNeutralGrapheme g = true) :
    (∀ cr f, st.currentRun = some cr → cr.type = .text → cr.font = some f →
      segStep cfg st g =
        { runs := st.runs,
          currentRun := some ⟨cr.type, cr.chars ++ g, cr.font, cr.graphemes ++ [g],
                              cr.emojiSvg⟩ }) ∧
    (st.currentRun = none →
      segStep cfg st g =
        match cfg.primaryFont.orElse fun _ => cfg.fallbackFont with
        | some f =>
          { runs := st.runs,
            currentRun := some { type := .text, chars := g, font := some f,
                                 graphemes := [g] } }
        | none =>
          { runs := st.runs ++ [{ type := .fallback, chars := g, font := none,
                                  graphemes := [g] }],
            currentRun := none }) := by
  constructor
  · intro cr f hcur htype hfont
    unfold segStep
    rw [if_neg (by simp [hn1, hn2])]
    rw [if_neg (by simp [hem])]
    rw [hscript, hcur]
    simp only [htype, hdir]
    rw [if_pos (by exact ⟨trivial, trivial, trivial, hneut⟩)]
    rw [hfont]
    dsimp only
    rw [if_pos ⟨trivial, rfl⟩]
  · intro hcur
    unfold segStep
    rw [if_neg (by simp [hn1, hn2])]
    rw [if_neg (by simp [hem])]
    rw [hscript, hcur, segPush_of_none st hcur]
    dsimp only
    cases hp : cfg.primaryFont with
    | some f => dsimp only [Option.orElse]
    | none =>
      dsimp only [Option.orElse]
      cases hf : cfg.fallbackFont with
      | some f => dsimp only
      | none => dsimp only

/-- C2 witness: the amended theorem applied in an rtl run where a full
stop follows a Hebrew-font text run and inherits its font 5. -/
theorem segStep_rtl_neutral_inherits_witness :
    segStep
      { primaryFont := some 0, internationalFonts := none, fallbackFont := none,
        emojiCache := fun _ => none, enableEmoji := true, direction := .rtl }
      { runs := [],
        currentRun := some ⟨.text, [Char.ofNat 0x05D0], some 5, [[Char.ofNat 0x05D0]], none⟩ }
      ['.'] =
      { runs := [],
        currentRun := some ⟨.text, [Char.ofNat 0x05D0, '.'], some 5,
                            [[Char.ofNat 0x05D0], ['.']], none⟩ } :=
  (segStep_rtl_neutral_inherits
    { primaryFont := some 0, internationalFonts := none, fallbackFont := none,
      emojiCache := fun _ => none, enableEmoji := true, direction := .rtl }
    { runs := [],
      currentRun := some ⟨.text, [Char.ofNat 0x05D0], some 5, [[Char.ofNat 0x05D0]], none⟩ }
    ['.'] rfl (by decide) (by decide) (by decide) (by decide) (by decide)).1
    ⟨.text, [Char.ofNat 0x05D0], some 5, [[Char.ofNat 0x05D0]], none⟩ 5 rfl rfl rfl

/-- C5: a keycap-sequence cluster (digit, emoji variation selector
U+FE0F, combining keycap U+20E3) is classified as emoji by `isEmoji`
(via the keycap-combiner containment test), and — since the emoji
branch of `segmentByFont` precedes script/neutral font resolution —
with artwork cached it becomes an emoji run, not a fallback or text
run, so it is not rendered as a fallback digit. -/
theorem keycap_classified_emoji (c : Char) (hc : '0' ≤ c ∧ c ≤ '9')
    (cfg : FontConfig) (st : SegState) (svg : JStr)
    (hon : cfg.enableEmoji = true)
    (hcache : cfg.emojiCache [c, Char.ofNat 0xFE0F, Char.ofNat 0x20E3] = some (some svg))
    (hsvg : svg ≠ []) :
    isEmoji [c, Char.ofNat 0xFE0F, Char.ofNat 0x20E3] = true ∧
    segStep cfg st [c, Char.ofNat 0xFE0F, Char.ofNat 0x20E3] =
      { runs := (segPush st).runs ++
          [{ type := .emoji, chars := [c, Char.ofNat 0xFE0F, Char.ofNat 0x20E3],
             font := none, graphemes := [[c, Char.ofNat 0xFE0F, Char.ofNat 0x20E3]],
             emojiSvg := some svg }],
        currentRun := none } := by
  have hemo : isEmoji [c, Char.ofNat 0xFE0F, Char.ofNat 0x20E3] = true := by
    simp [isEmoji]
  refine ⟨hemo, ?_⟩
  have hne : c ≠ '\n' := by
    intro h
    subst h
    revert hc
    decide
  unfold segStep
  rw [if_neg (by simp)]
  rw [if_pos (by simp [emojiHit, hon, hemo, hcache, hsvg])]
  rw [hcache]


lemma layoutStep_parts_cases (cfg : LayoutConfig) (d : Dir) (st : LayoutState)
    (run : FontRun) :
    ∀ p ∈ (layoutStep cfg d st run).parts,
      p ∈ st.parts ∨ partNonPrimaryNoFeatures cfg.primaryFont p := by
  intro p hp
  unfold layoutStep at hp
  split at hp
  · -- newline
    split at hp
    · exact Or.inl hp
    · exact Or.inl hp
  · -- emoji
    split at hp
    · split at hp
      · simp only [List.mem_append, List.mem_singleton] at hp
        rcases hp with hp | hp
        · exact Or.inl hp
        · subst hp
          exact Or.inr trivial
      · exact Or.inl hp
    · exact Or.inl hp
  · -- fallback
    simp only [List.mem_append, List.mem_singleton] at hp
    rcases hp with hp | hp
    · exact Or.inl hp
    · subst hp
      exact Or.inr trivial
  · -- text
    dsimp only at hp
    split at hp
    · rename_i f heq
      simp only [List.mem_append, List.mem_singleton] at hp
      rcases hp with hp | hp
      · exact Or.inl hp
      · subst hp
        refine Or.inr ?_
        intro hne
        rw [heq]
        rw [if_neg hne]
    · exact Or.inl hp

lemma layoutRuns_featureOk (cfg : LayoutConfig) (d : Dir) (runs : List FontRun) :
    ∀ st : LayoutState,
      (∀ p ∈ st.parts, partNonPrimaryNoFeatures cfg.primaryFont p) →
      ∀ p ∈ (layoutRuns cfg d st runs).parts, partNonPrimaryNoFeatures cfg.primaryFont p := by
  induction runs with
  | nil => intro st h; exact h
  | cons r rs ih =>
    intro st h
    rw [layoutRuns, List.foldl_cons]
    refine ih (layoutStep cfg d st r) ?_
    intro p hp
    rcases layoutStep_parts_cases cfg d st r p hp with hmem | hgood
    · exact h p hmem
    · exact hgood

/-- C6: the requested feature tags reach the shaper only for runs shaped
with the primary font — every shaped part whose font differs from the
primary font was passed the empty feature string (first conjunct, for
the harfbuzzjs backend, where `hb.shape` applies substitutions from the
feature string), and the opentype.js backend's substitution-table lookup
`applyGlyphSub` leaves every glyph of a non-primary-font run unchanged
(second conjunct). -/
theorem features_primary_only (cfg : LayoutConfig) (d : Dir) (st : LayoutState)
    (runs : List FontRun)
    (hstart : ∀ p ∈ st.parts, partNonPrimaryNoFeatures cfg.primaryFont p) :
    (∀ p ∈ (layoutRuns cfg d st runs).parts, partNonPrimaryNoFeatures cfg.primaryFont p) ∧
    (∀ (m : Nat → Option Nat) (font : Option Font) (gi : Nat),
      font ≠ cfg.primaryFont → applyGlyphSub m font cfg.primaryFont gi = gi) := by
  constructor
  · exact layoutRuns_featureOk cfg d runs st hstart
  · intro m font gi hne
    unfold applyGlyphSub
    rw [if_neg fun hcond => hne hcond.2.1]

/-- C6 witness: a text run in font 7 under primary font 0 is shaped with
an empty feature string even though `ss01` was requested, and the
substitution map is not consulted for it. -/
theorem features_primary_only_witness :
    partNonPrimaryNoFeatures (some 0) (.shaped 7 ['a'] 0 0 36 [] [] .rtl) ∧
    applyGlyphSub (fun _ => some 9) (some 7) (some 0) 5 = 5 := by
  have h := features_primary_only
    { x := 0, fontSize := 36, fill := [], fontWeight := 700, primaryFont := some 0,
      featureString := "ss01".toList, shapeAdvanceUnits := fun _ _ _ _ => 10,
      upem := fun _ => 1000 } .rtl
    { parts := [], currentX := 0, currentY := 0 }
    [⟨.text, ['a'], some 7, [['a']], none⟩]
    (by intro p hp; cases hp)
  exact ⟨h.1 (.shaped 7 ['a'] 0 0 36 [] [] .rtl) (by decide), h.2 (fun _ => some 9) (some 7) 5 (by decide)⟩


/-- C7: a `'\n'` line-break run resets the cursor x to the origin x and
advances the cursor y by exactly `1.2 × fontSize`, a `'\r'` line-break
run leaves the cursor unchanged, and for the concrete input `"A\nB"`
anchored at `(x, y)` with font size `F` (with ltr embedding levels from
the bidi oracle and any shaper behavior) the second line's glyph run is
placed at cursor `(x, y + 1.2 F)`. -/
theorem newline_resets_cursor (cfg : LayoutConfig) (d : Dir) (st : LayoutState)
    (run : FontRun) :
    (run.type = .newline → run.chars = ['\n'] →
      layoutStep cfg d st run =
        { parts := st.parts, currentX := cfg.x,
          currentY := st.currentY + cfg.fontSize * 1.2 }) ∧
    (run.type = .newline → run.chars = ['\r'] → layoutStep cfg d st run = st) ∧
    (∀ (x y F : ℚ) (fill feats : JStr) (fw : ℚ)
       (adv : Font → JStr → JStr → Dir → ℚ) (upem : Font → ℚ),
      (generateTextPaths
        { x := x, y := y, fontSize := F, fill := fill, primaryFont := some 0,
          internationalFonts := none, fallbackFont := none,
          emojiCache := fun _ => none, enableEmoji := true, fontWeight := fw,
          featureString := feats, shapeAdvanceUnits := adv, upem := upem,
          levels := fun _ => 0 }
        "A\nB".toList).parts =
      [.shaped 0 ['A'] x y F fill feats .ltr,
       .shaped 0 ['B'] x (y + F * 1.2) F fill feats .ltr]) := by
  refine ⟨?_, ?_, ?_⟩
  · intro h1 h2
    unfold layoutStep
    rw [h1]
    dsimp only
    rw [if_pos h2]
  · intro h1 h2
    unfold layoutStep
    rw [h1, h2]
    dsimp only
    rw [if_neg (by decide)]
  · intro x y F fill feats fw adv upem
    rfl

/-- C7 witness: the theorem applied to a concrete `'\n'` run at cursor
(30, 50) with font size 20 and origin x 10: the cursor moves to
(10, 74). -/
theorem newline_resets_cursor_witness :
    layoutStep
      { x := 10, fontSize := 20, fill := [], fontWeight := 700, primaryFont := none,
        featureString := [], shapeAdvanceUnits := fun _ _ _ _ => 0, upem := fun _ => 1 }
      .ltr { parts := [], currentX := 30, currentY := 50 }
      { type := .newline, chars := ['\n'], font := none, graphemes := [['\n']] } =
      { parts := [], currentX := 10, currentY := 50 + 20 * 1.2 } :=
  (newline_resets_cursor
    { x := 10, fontSize := 20, fill := [], fontWeight := 700, primaryFont := none,
      featureString := [], shapeAdvanceUnits := fun _ _ _ _ => 0, upem := fun _ => 1 }
    .ltr { parts := [], currentX := 30, currentY := 50 }
    { type := .newline, chars := ['\n'], font := none, graphemes := [['\n']] }).1 rfl rfl

/-- C3 counterexample: an emoji run whose cached artwork `"x"` contains
no `<svg>` content produces no output at all — the assembler emits
nothing (no placeholder shape of any size) and does not advance the
cursor, contradicting the claimed placeholder emission. -/
theorem emoji_assembly_counterexample :
    layoutStep
      { x := 0, fontSize := 20, fill := [], fontWeight := 700, primaryFont := none,
        featureString := [], shapeAdvanceUnits := fun _ _ _ _ => 0, upem := fun _ => 1 }
      .ltr { parts := [], currentX := 10, currentY := 50 }
      { type := .emoji, chars := [Char.ofNat 0x1F600], font := none,
        graphemes := [[Char.ofNat 0x1F600]], emojiSvg := some ['x'] } =
      { parts := [], currentX := 10, currentY := 50 } := by
  decide

/-- C3 (amended): an emoji run whose pre-fetched artwork yields `<svg>`
content is emitted as a group at
`translate(cursor-x, cursor-y − 0.75·fontSize) scale(fontSize/36)` with
cursor-x advanced by `fontSize` (first conjunct); when the artwork
contains no extractable `<svg>` content the assembler emits nothing for
the cluster and leaves the cursor unchanged (second conjunct); a
cluster whose artwork fetch failed (cache miss or cached `null`) never
takes the emoji branch of the segmenter and so is rendered through the
font / native-text fallback path (third conjunct); and processing
always continues with the sibling runs (fourth conjunct). -/
theorem emoji_assembly (cfg : LayoutConfig) (d : Dir) (st : LayoutState)
    (run : FontRun) (svg inner : JStr) :
    (run.type = .emoji → run.emojiSvg = some svg → svgMatchInner svg = some inner →
      layoutStep cfg d st run =
        { parts := st.parts ++
            [.emojiGroup st.currentX (st.currentY - cfg.fontSize * 0.75)
              (cfg.fontSize / 36) inner],
          currentX := st.currentX + cfg.fontSize, currentY := st.currentY }) ∧
    (run.type = .emoji → run.emojiSvg = some svg → svgMatchInner svg = none →
      layoutStep cfg d st run = st) ∧
    (∀ (fcfg : FontConfig) (g : Grapheme),
      fcfg.emojiCache g = none ∨ fcfg.emojiCache g = some none →
      emojiHit fcfg g = false) ∧
    (∀ rest : List FontRun,
      layoutRuns cfg d st (run :: rest) =
        layoutRuns cfg d (layoutStep cfg d st run) rest) := by
  refine ⟨?_, ?_, ?_, ?_⟩
  · intro h1 h2 h3
    unfold layoutStep
    rw [h1]
    dsimp only
    rw [h2]
    dsimp only
    rw [h3]
  · intro h1 h2 h3
    unfold layoutStep
    rw [h1]
    dsimp only
    rw [h2]
    dsimp only
    rw [h3]
  · intro fcfg g hcache
    unfold emojiHit
    rcases hcache with h | h <;> rw [h] <;> simp
  · intro rest
    rw [layoutRuns, List.foldl_cons]
    rfl

/-- C3 witness: the amended theorem applied to a concrete emoji run
with artwork `<svg a="1"><c/></svg>`: the group holds the inner content
`<c/>` at translate(10, 50 − 20·0.75) scale(20/36) and the cursor
advances by the font size. -/
theorem emoji_assembly_witness :
    layoutStep
      { x := 0, fontSize := 20, fill := [], fontWeight := 700, primaryFont := none,
        featureString := [], shapeAdvanceUnits := fun _ _ _ _ => 0, upem := fun _ => 1 }
      .ltr { parts := [], currentX := 10, currentY := 50 }
      { type := .emoji, chars := [Char.ofNat 0x1F600], font := none,
        graphemes := [[Char.ofNat 0x1F600]],
        emojiSvg := some "<svg a=\"1\"><c/></svg>".toList } =
      { parts := [.emojiGroup 10 (50 - 20 * 0.75) (20 / 36) "<c/>".toList],
        currentX := 10 + 20, currentY := 50 } := by
  have h := (emoji_assembly
    { x := 0, fontSize := 20, fill := [], fontWeight := 700, primaryFont := none,
      featureString := [], shapeAdvanceUnits := fun _ _ _ _ => 0, upem := fun _ => 1 }
    .ltr { parts := [], currentX := 10, currentY := 50 }
    { type := .emoji, chars := [Char.ofNat 0x1F600], font := none,
      graphemes := [[Char.ofNat 0x1F600]],
      emojiSvg := some "<svg a=\"1\"><c/></svg>".toList }
    "<svg a=\"1\"><c/></svg>".toList "<c/>".toList).1 rfl rfl (by decide)
  simpa using h

/-- C4: the font-loader cache does not coalesce concurrent requests:
under the interleaving check₁ check₂ finish₁ finish₂ — both cache
checks running before either load completes, which the `await` between
the check and the cache write permits — two concurrent requests for the
same key perform two underlying loads and two cache writes (the second
overwriting the first), while the same two requests run sequentially
perform a single load.  This contradicts the claimed
exactly-one-load coalescing. -/
theorem fontCache_concurrent_double_load :
    (runLoader 2 [0, 1, 0, 1]).loadCount = 2 ∧
    (runLoader 2 [0, 1, 0, 1]).writes = [100, 101] ∧
    (runLoader 2 [0, 1, 0, 1]).reqs = [.done 100, .done 101] ∧
    (runLoader 2 [0, 0, 1, 1]).loadCount = 1 := by
  decide

/-- C5 witness: the keycap cluster `3️⃣` (3, U+FE0F, U+20E3) with
cached artwork `"x"` is classified as emoji and becomes an emoji run. -/
theorem keycap_classified_emoji_witness :
    isEmoji ['3', Char.ofNat 0xFE0F, Char.ofNat 0x20E3] = true ∧
    segStep
      { primaryFont := some 0, internationalFonts := none, fallbackFont := none,
        emojiCache := fun g =>
          if g = ['3', Char.ofNat 0xFE0F, Char.ofNat 0x20E3] then some (some ['x'])
          else none,
        enableEmoji := true, direction := .ltr }
      { runs := [], currentRun := none }
      ['3', Char.ofNat 0xFE0F, Char.ofNat 0x20E3] =
      { runs := [{ type := .emoji, chars := ['3', Char.ofNat 0xFE0F, Char.ofNat 0x20E3],
                   font := none,
                   graphemes := [['3', Char.ofNat 0xFE0F, Char.ofNat 0x20E3]],
                   emojiSvg := some ['x'] }],
        currentRun := none } :=
  keycap_classified_emoji '3' ⟨by decide, by decide⟩
    { primaryFont := some 0, internationalFonts := none, fallbackFont := none,
      emojiCache := fun g =>
        if g = ['3', Char.ofNat 0xFE0F, Char.ofNat 0x20E3] then some (some ['x'])
        else none,
      enableEmoji := true, direction := .ltr }
    { runs := [], currentRun := none } ['x'] rfl (by decide) (by decide)

end Rasterize
